import Mathlib

/-!
# bettercap: `core.UniqueInts` and the `hid.recon` engine

A shallow embedding of `core/core.go` (`UniqueInts`) and of
`modules/hid_recon/hid_recon.go` (`setSniffMode`, `doHopping`, `doPing`,
`onSniffedBuffer`), followed by theorems about them.

Conventions of the embedding

* Go `int` is `Int`; the one place where the engine increments an arbitrary
  stored value (`mod.channel++` in `doHopping`) wraps at 64 bits (`wrapInt`).
  `nrf24.TopChannel`, a constant of the transceiver library, is a parameter.
* Go `[]byte` is `List Nat` (`Bytes`); a `nil` slice field is `none`.
* The `error` result of a transceiver call is a `Bool`: `true` stands for
  `err == nil`.  The `error` returned by `setSniffMode` is an `Option String`.
* The transceiver (`*nrf24.Dongle`) is an external collaborator: it is a record
  of state-passing operations over an arbitrary state type `D`.
* `time.Now()` / `time.Since` read a clock; one reading `now : Int` is passed to
  each call of an engine method, and `time.Since t` is `now - t`.
* Logging calls (`mod.Debug`, `mod.Info`, `mod.Warning`, `mod.Error`) have no
  effect on the modelled state and are left out.
-/

namespace Core

/-- The statement `tmp[n] = true` on a Go `map[int]bool` that only ever holds
`true`: the map is kept as the list of its keys, each key once. -/
def mapSet (tmp : List Int) (n : Int) : List Int :=
  if n ∈ tmp then tmp else tmp ++ [n]

/-- The call `sort.Ints`: ascending order. -/
def sortInts (l : List Int) : List Int :=
  l.insertionSort (· ≤ ·)

/-- The function `UniqueInts` of `core/core.go`.  The order in which `range`
walks a Go map is unspecified; `rangeOrder` is that order, applied to the keys
of the map. -/
def UniqueInts (rangeOrder : List Int → List Int) (a : List Int) (sorted : Bool) : List Int :=
  let tmp := a.foldl mapSet []
  let uniq := (rangeOrder tmp).foldl (fun uniq n => uniq ++ [n]) []
  if sorted then sortInts uniq else uniq

end Core

namespace HidRecon

/-- Go `[]byte`. -/
abbrev Bytes := List Nat

/-- Two's complement wrap-around of a Go `int` (64 bits). -/
def wrapInt (x : Int) : Int :=
  (x + 2 ^ 63) % 2 ^ 64 - 2 ^ 63

/-- The fields of `HIDRecon` that the engine logic reads or writes (the session,
wait group, mutex and view selector are left out; the dongle is passed
separately). -/
structure HIDRecon where
  channel : Int
  hopPeriod : Int
  pingPeriod : Int
  sniffPeriod : Int
  lastHop : Int
  lastPing : Int
  useLNA : Bool
  sniffAddrRaw : Option Bytes
  sniffAddr : String
  pingPayload : Bytes
  inSniffMode : Bool
  inPromMode : Bool
  keyMap : String
deriving DecidableEq, Repr

/-- The operations of `*nrf24.Dongle` used by the engine, over a transceiver
state `D`.  Each returns the new transceiver state and whether the call
succeeded (`err == nil`). -/
structure Dongle (D : Type) where
  EnterPromiscMode : D → D × Bool
  EnterSnifferModeFor : D → Option Bytes → D × Bool
  SetChannel : D → Int → D × Bool
  TransmitPayload : D → Bytes → Int → Int → D × Bool

/-- The state `NewHIDRecon` builds, at clock reading `now`. -/
def NewHIDRecon (now : Int) : HIDRecon :=
  { channel := 1
    hopPeriod := 100 * 1000000
    pingPeriod := 100 * 1000000
    sniffPeriod := 500 * 1000000
    lastHop := now
    lastPing := now
    useLNA := true
    sniffAddrRaw := none
    sniffAddr := ""
    pingPayload := [0x0f, 0x0f, 0x0f, 0x0f]
    inSniffMode := false
    inPromMode := false
    keyMap := "us" }

section Hopping

variable {D : Type}

/-- First block of `doHopping`: enter promiscuous mode unless already there. -/
def enterPromisc (dg : Dongle D) (mod : HIDRecon) (d : D) : HIDRecon × D :=
  if mod.inPromMode == false then
    match dg.EnterPromiscMode d with
    | (d1, false) => (mod, d1)
    | (d1, true) => ({ mod with inSniffMode := false, inPromMode := true }, d1)
  else (mod, d)

/-- The statements `mod.channel++; if mod.channel > nrf24.TopChannel { mod.channel = 1 }`. -/
def nextChannel (TopChannel : Int) (channel : Int) : Int :=
  let channel := wrapInt (channel + 1)
  if channel > TopChannel then 1 else channel

/-- Second block of `doHopping`: the hop itself, once `hopPeriod` has elapsed. -/
def hop (dg : Dongle D) (TopChannel : Int) (now : Int) (mod : HIDRecon) (d : D) : HIDRecon × D :=
  if now - mod.lastHop ≥ mod.hopPeriod then
    let mod := { mod with channel := nextChannel TopChannel mod.channel }
    match dg.SetChannel d mod.channel with
    | (d1, false) => (mod, d1)
    | (d1, true) => ({ mod with lastHop := now }, d1)
  else (mod, d)

/-- The method `HIDRecon.doHopping`. -/
def doHopping (dg : Dongle D) (TopChannel : Int) (now : Int) (mod : HIDRecon) (d : D) :
    HIDRecon × D :=
  let s := enterPromisc dg mod d
  hop dg TopChannel now s.1 s.2

/-- Consecutive `doHopping` calls, one per clock reading of `ts`. -/
def runHopping (dg : Dongle D) (TopChannel : Int) : List Int → HIDRecon × D → HIDRecon × D
  | [], s => s
  | now :: ts, s => runHopping dg TopChannel ts (doHopping dg TopChannel now s.1 s.2)

/-- Every call of a run finds the hop period elapsed, given that each call
before it set `lastHop` to its own clock reading. -/
def hopsDue (hopPeriod : Int) : Int → List Int → Prop
  | _, [] => True
  | lastHop, now :: ts => now - lastHop ≥ hopPeriod ∧ hopsDue hopPeriod now ts

end Hopping

section SniffMode

/-- The method `HIDRecon.setSniffMode`.  `ConvertAddress` is `nrf24.ConvertAddress`
(it returns the error, if any, and the raw address) and `NormalizeHIDAddress` is
`network.NormalizeHIDAddress`.  The result is the returned error (`none` for
`nil`) and the engine state after the call. -/
def setSniffMode (ConvertAddress : String → Option String × Bytes)
    (NormalizeHIDAddress : String → String) (mode : String) (mod : HIDRecon) :
    Option String × HIDRecon :=
  let mod := { mod with inSniffMode := false }
  if mode == "clear" then
    (none, { mod with sniffAddrRaw := none, sniffAddr := "" })
  else
    match ConvertAddress mode with
    | (some err, _) => (some err, mod)
    | (none, raw) =>
      (none, { mod with sniffAddr := NormalizeHIDAddress mode, sniffAddrRaw := some raw })

/-- The method `HIDRecon.isSniffing`. -/
def isSniffing (mod : HIDRecon) : Bool :=
  mod.sniffAddrRaw != none

end SniffMode

section Directory

/-- Modelled from the spec: the device record `network.HIDDevice` (its file is
not among the sources): address, inferred type, last-seen time, append-only
payload history, append-only deduplicated channel set. -/
structure HIDDevice where
  Address : String
  /-- The field `Type` of the record. -/
  DevType : Nat
  LastSeen : Int
  payloads : List Bytes
  channels : List Int
deriving DecidableEq, Repr

/-- Modelled from the spec: `HIDDevice.AddPayload`, which appends the payload
to the device's payload history. -/
def HIDDevice.AddPayload (dev : HIDDevice) (payload : Bytes) : HIDDevice :=
  { dev with payloads := dev.payloads ++ [payload] }

/-- Modelled from the spec: `HIDDevice.AddChannel`, which adds the channel to
the device's deduplicated channel set. -/
def HIDDevice.AddChannel (dev : HIDDevice) (ch : Int) : HIDDevice :=
  { dev with channels := if ch ∈ dev.channels then dev.channels else dev.channels ++ [ch] }

/-- Modelled from the spec: the device directory `mod.Session.HID`, the
lookup `get(address) -> Device?` seen as a finite map by address. -/
abbrev HID := String → Option HIDDevice

/-- The call `mod.Session.HID.Get`. -/
def HID.Get (hid : HID) (addr : String) : Option HIDDevice :=
  hid addr

/-- Writing through the pointer `Get` returned: the record stored under `addr`
is replaced, every other record is kept. -/
def HID.store (hid : HID) (addr : String) (dev : HIDDevice) : HID :=
  fun a => if a = addr then some dev else hid a

/-- The method `HIDRecon.onSniffedBuffer`. -/
def onSniffedBuffer (now : Int) (mod : HIDRecon) (hid : HID) (buf : Bytes) : HID :=
  if buf.length > 0 && buf[0]? == some 0x00 then
    let buf := buf.drop 1
    match hid.Get mod.sniffAddr with
    | some dev =>
      let dev := { dev with LastSeen := now }
      let dev := dev.AddPayload buf
      let dev := dev.AddChannel mod.channel
      hid.store mod.sniffAddr dev
    | none => hid
  else hid

end Directory

section Ping

variable {D : Type}

/-- The struct `Command` of the package (declared outside the given sources):
the key descriptor, the delay after each frame and the wire frames. -/
structure Command where
  Mode : Nat
  HID : Nat
  Char : String
  Sleep : Int
  Frames : List Bytes
deriving DecidableEq, Repr

/-- A key map: what `KeyMapFor` returns when the layout exists. -/
abbrev KeyMap := String → Option Command

/-- A frame builder: `BuildFrames` fills in `Frames` and `Sleep` of the
commands of the slice it is given, in place. -/
abbrev FrameBuilder := List Command → List Command

/-- Package-level data that `doPing` reads and that is declared outside the
given sources. -/
structure Env where
  TopChannel : Int
  FrameBuilders : Nat → Option FrameBuilder
  KeyMapFor : String → Option KeyMap

/-- First block of `doPing`: enter sniffer mode unless already there. -/
def enterSniffer (dg : Dongle D) (mod : HIDRecon) (d : D) : HIDRecon × D :=
  if mod.inSniffMode == false then
    match dg.EnterSnifferModeFor d mod.sniffAddrRaw with
    | (d1, false) => (mod, d1)
    | (d1, true) => ({ mod with inSniffMode := true, inPromMode := false }, d1)
  else (mod, d)

/-- Outcome of the fallback scan: the value of `mod.channel` when the loop is
left, the transceiver state, and whether a channel answered. -/
structure ScanOut (D : Type) where
  channel : Int
  dongle : D
  found : Bool

/-- The loop `for mod.channel = 1; mod.channel <= nrf24.TopChannel; mod.channel++`
of `doPing`, entered with `mod.channel = ch`; the result carries the value of
the loop variable when the loop is left.  The loop variable stays at most one
past `TopChannel`, a constant below the largest `int`, so its increment does
not wrap. -/
def scan (dg : Dongle D) (TopChannel : Int) (pingPayload : Bytes) (ch : Int) (d : D) :
    ScanOut D :=
  if ch ≤ TopChannel then
    match dg.SetChannel d ch with
    | (d1, false) => scan dg TopChannel pingPayload (ch + 1) d1
    | (d1, true) =>
      match dg.TransmitPayload d1 pingPayload 250 1 with
      | (d2, true) => ⟨ch, d2, true⟩
      | (d2, false) => scan dg TopChannel pingPayload (ch + 1) d2
  else ⟨ch, d, false⟩
termination_by (TopChannel + 1 - ch).toNat
decreasing_by all_goals (simp_wf; omega)

/-- Outcome of the keep-alive block: engine state, transceiver state, and
whether the block executed its `return`. -/
structure KeepAliveOut (D : Type) where
  mod : HIDRecon
  dongle : D
  returned : Bool

/-- Second block of `doPing`: the keep-alive ping, once `pingPeriod` has elapsed. -/
def keepAlive (dg : Dongle D) (TopChannel : Int) (now : Int) (mod : HIDRecon) (d : D) :
    KeepAliveOut D :=
  if now - mod.lastPing ≥ mod.pingPeriod then
    match dg.TransmitPayload d mod.pingPayload 250 1 with
    | (d1, true) => ⟨mod, d1, false⟩
    | (d1, false) =>
      let r := scan dg TopChannel mod.pingPayload 1 d1
      if r.found then ⟨{ mod with channel := r.channel, lastPing := now }, r.dongle, true⟩
      else ⟨{ mod with channel := r.channel }, r.dongle, false⟩
  else ⟨mod, d, false⟩

/-- The loop over the runes of the text: every character is looked up in the
key map; `none` is the `return` taken at the first character without entry. -/
def resolveCommands (keyMap : KeyMap) : List Char → List Command → Option (List Command)
  | [], cmds => some cmds
  | c :: str, cmds =>
    let ch := String.singleton c
    match keyMap ch with
    | some m =>
      resolveCommands keyMap str
        (cmds ++ [{ Char := ch, HID := m.HID, Mode := m.Mode, Sleep := 0, Frames := [] }])
    | none => none

/-- What the injection loops did: the transceiver state, the frames handed to
`TransmitPayload` in order, each with its outcome, the delays slept (ms), and
whether the loops ran to their end. -/
structure TxOut (D : Type) where
  dongle : D
  sent : List (Bytes × Bool)
  slept : List Int
  completed : Bool

/-- The inner loop `for j, frame := range cmd.Frames` for one command. -/
def sendFrames (dg : Dongle D) (Sleep : Int) : List Bytes → D → TxOut D
  | [], d => ⟨d, [], [], true⟩
  | frame :: frames, d =>
    match dg.TransmitPayload d frame 250 1 with
    | (d1, false) => ⟨d1, [(frame, false)], [], false⟩
    | (d1, true) =>
      let r := sendFrames dg Sleep frames d1
      ⟨r.dongle, (frame, true) :: r.sent, if Sleep > 0 then Sleep :: r.slept else r.slept,
        r.completed⟩

/-- The outer loop `for i, cmd := range cmds`. -/
def sendCommands (dg : Dongle D) : List Command → D → TxOut D
  | [], d => ⟨d, [], [], true⟩
  | cmd :: cmds, d =>
    let r := sendFrames dg cmd.Sleep cmd.Frames d
    if r.completed then
      let r2 := sendCommands dg cmds r.dongle
      ⟨r2.dongle, r.sent ++ r2.sent, r.slept ++ r2.slept, r2.completed⟩
    else r

/-- The frames of a command sequence: the frame lists of the commands, one
after the other, commands in their order. -/
def frameSequence : List Command → List Bytes
  | [] => []
  | cmd :: cmds => cmd.Frames ++ frameSequence cmds

/-- Shape of a transmit record against the frames that were to be sent:
either the loops ran to their end, every frame was sent and none failed, or
they stopped at a frame whose transmit failed, the frames before it sent
successfully and none after it attempted. -/
def TxShape (all : List Bytes) (sent : List (Bytes × Bool)) (completed : Bool) : Prop :=
  (completed = true ∧ sent.map Prod.fst = all ∧ ∀ e ∈ sent, e.2 = true) ∨
  (completed = false ∧ ∃ pre f post, all = pre.map Prod.fst ++ f :: post ∧
    sent = pre ++ [(f, false)] ∧ ∀ e ∈ pre, e.2 = true)

/-- The record `sent` is the sequence of `TransmitPayload` calls made on the
transceiver from state `d` to state `d1`: each entry is a payload handed to
the transceiver in the state the call before it left, with timeout 250 and
one retry, together with the outcome the transceiver gave for that call. -/
def handed (dg : Dongle D) : D → List (Bytes × Bool) → D → Prop
  | d, [], d1 => d1 = d
  | d, e :: sent, d1 =>
    (dg.TransmitPayload d e.1 250 1).2 = e.2 ∧
    handed dg (dg.TransmitPayload d e.1 250 1).1 sent d1

/-- What one `doPing` call did after the keep-alive block: the commands as
`BuildFrames` left them (`none` when it was not called), and the record of the
injection loops. -/
structure InjectOut (D : Type) where
  dongle : D
  built : Option (List Command)
  sent : List (Bytes × Bool)
  slept : List Int

/-- The injection stage of `doPing`, from `KeyMapFor` to the end, for the
text `str`. -/
def inject (env : Env) (dg : Dongle D) (keyMapName : String) (builder : FrameBuilder)
    (str : List Char) (d : D) : InjectOut D :=
  match env.KeyMapFor keyMapName with
  | none => ⟨d, none, [], []⟩
  | some keyMap =>
    match resolveCommands keyMap str [] with
    | none => ⟨d, none, [], []⟩
    | some cmds =>
      let cmds := builder cmds
      let r := sendCommands dg cmds d
      ⟨r.dongle, some cmds, r.sent, r.slept⟩

/-- Result of one `doPing` call. -/
structure PingOut (D : Type) where
  mod : HIDRecon
  inj : InjectOut D

/-- The text `doPing` injects. -/
def str : List Char := "hello world".toList

/-- The method `HIDRecon.doPing`. -/
def doPing (env : Env) (dg : Dongle D) (now : Int) (hid : HID) (mod : HIDRecon) (d : D) :
    PingOut D :=
  let s := enterSniffer dg mod d
  let k := keepAlive dg env.TopChannel now s.1 s.2
  if k.returned then ⟨k.mod, ⟨k.dongle, none, [], []⟩⟩
  else
    match hid.Get k.mod.sniffAddr with
    | none => ⟨k.mod, ⟨k.dongle, none, [], []⟩⟩
    | some dev =>
      match env.FrameBuilders dev.DevType with
      | none => ⟨k.mod, ⟨k.dongle, none, [], []⟩⟩
      | some builder => ⟨k.mod, inject env dg k.mod.keyMap builder str k.dongle⟩

end Ping

end HidRecon

/-! ## Concrete transceivers, tables and states

Small instances of the external collaborators, used to run the embedding on
concrete inputs. -/

namespace HidRecon

/-- A transceiver on which every call succeeds. -/
def okDongle : Dongle Unit :=
  { EnterPromiscMode := fun d => (d, true)
    EnterSnifferModeFor := fun d _ => (d, true)
    SetChannel := fun d _ => (d, true)
    TransmitPayload := fun d _ _ _ => (d, true) }

/-- A transceiver whose `SetChannel` fails; every other call succeeds. -/
def stuckDongle : Dongle Unit :=
  { EnterPromiscMode := fun d => (d, true)
    EnterSnifferModeFor := fun d _ => (d, true)
    SetChannel := fun d _ => (d, false)
    TransmitPayload := fun d _ _ _ => (d, true) }

/-- A transceiver whose state is the channel the radio is tuned to:
`SetChannel` always succeeds and a transmit succeeds exactly on channel `K`. -/
def radio (K : Int) : Dongle Int :=
  { EnterPromiscMode := fun ch => (ch, true)
    EnterSnifferModeFor := fun ch _ => (ch, true)
    SetChannel := fun _ n => (n, true)
    TransmitPayload := fun ch _ _ _ => (ch, ch == K) }

/-- A transceiver whose state is the channel the radio is tuned to and on
which no transmit ever succeeds. -/
def silentRadio : Dongle Int :=
  { EnterPromiscMode := fun ch => (ch, true)
    EnterSnifferModeFor := fun ch _ => (ch, true)
    SetChannel := fun _ n => (n, true)
    TransmitPayload := fun ch _ _ _ => (ch, false) }

/-- A transceiver whose transmits follow a script: its state is the list of
the outcomes still to come (success once the script is used up). -/
def scripted : Dongle (List Bool) :=
  { EnterPromiscMode := fun s => (s, true)
    EnterSnifferModeFor := fun s _ => (s, true)
    SetChannel := fun s _ => (s, true)
    TransmitPayload := fun s _ _ _ => (s.tail, s.headD true) }

/-- A transceiver that records what it is given: its state is the outcomes
still to come (success once they are used up) and the payloads handed to
`TransmitPayload` so far, in order. -/
def recorder : Dongle (List Bool × List Bytes) :=
  { EnterPromiscMode := fun s => (s, true)
    EnterSnifferModeFor := fun s _ => (s, true)
    SetChannel := fun s _ => (s, true)
    TransmitPayload := fun s payload _ _ => ((s.1.tail, s.2 ++ [payload]), s.1.headD true) }

/-- A key map with the letters of `"hello world"`, `"ok"` and `"hi"`, and no
entry for `'!'`. -/
def testKeyMap : KeyMap := fun ch =>
  match ch.toList with
  | ['h'] => some { Mode := 0, HID := 0x0b, Char := ch, Sleep := 0, Frames := [] }
  | ['e'] => some { Mode := 0, HID := 0x08, Char := ch, Sleep := 0, Frames := [] }
  | ['l'] => some { Mode := 0, HID := 0x0f, Char := ch, Sleep := 0, Frames := [] }
  | ['o'] => some { Mode := 0, HID := 0x12, Char := ch, Sleep := 0, Frames := [] }
  | [' '] => some { Mode := 0, HID := 0x2c, Char := ch, Sleep := 0, Frames := [] }
  | ['w'] => some { Mode := 0, HID := 0x1a, Char := ch, Sleep := 0, Frames := [] }
  | ['r'] => some { Mode := 0, HID := 0x15, Char := ch, Sleep := 0, Frames := [] }
  | ['d'] => some { Mode := 0, HID := 0x07, Char := ch, Sleep := 0, Frames := [] }
  | ['k'] => some { Mode := 0, HID := 0x0e, Char := ch, Sleep := 0, Frames := [] }
  | ['i'] => some { Mode := 0, HID := 0x0c, Char := ch, Sleep := 0, Frames := [] }
  | _ => none

/-- A builder that gives every command one frame, made of its mode and key
code, and a delay of 12 ms. -/
def oneFrameBuilder : FrameBuilder := fun cmds =>
  cmds.map fun cmd => { cmd with Frames := [[cmd.Mode, cmd.HID]], Sleep := 12 }

/-- Package data with five channels, one supported device type (`1`) and the
one layout `"us"`. -/
def testEnv : Env :=
  { TopChannel := 5
    FrameBuilders := fun t => if t = 1 then some oneFrameBuilder else none
    KeyMapFor := fun name => if name = "us" then some testKeyMap else none }

/-- A device of the supported type. -/
def testDevice : HIDDevice :=
  { Address := "aa:bb:cc:dd:ee", DevType := 1, LastSeen := 0, payloads := [], channels := [] }

/-- A directory holding `testDevice` only. -/
def testHID : HID := fun addr =>
  if addr = "aa:bb:cc:dd:ee" then some testDevice else none

/-- An engine locked on `testDevice`, already in sniffer mode, on channel `ch`,
last pinged at time `0`. -/
def lockedOn (ch : Int) : HIDRecon :=
  { NewHIDRecon 0 with
    channel := ch
    sniffAddrRaw := some [0xaa, 0xbb, 0xcc, 0xdd, 0xee]
    sniffAddr := "aa:bb:cc:dd:ee"
    inSniffMode := true }

/-- An address conversion that rejects every argument. -/
def rejectAll : String → Option String × Bytes :=
  fun _ => (some "invalid address", [])

end HidRecon

/-! ## `core.UniqueInts` -/

namespace Core

theorem mapSet_nodup (tmp : List Int) (n : Int) (h : tmp.Nodup) : (mapSet tmp n).Nodup := by
  unfold mapSet
  split
  · exact h
  · rename_i hn
    exact List.Nodup.append h (List.nodup_singleton n) (by simpa using hn)

theorem mem_mapSet (tmp : List Int) (n x : Int) : x ∈ mapSet tmp n ↔ x ∈ tmp ∨ x = n := by
  unfold mapSet
  split
  · rename_i hn
    constructor
    · intro h; exact Or.inl h
    · rintro (h | h)
      · exact h
      · exact h ▸ hn
  · simp

theorem foldl_mapSet_nodup (a : List Int) :
    ∀ tmp : List Int, tmp.Nodup → (a.foldl mapSet tmp).Nodup := by
  induction a with
  | nil => intro tmp h; simpa using h
  | cons n a ih => intro tmp h; exact ih _ (mapSet_nodup tmp n h)

theorem mem_foldl_mapSet (a : List Int) (x : Int) :
    ∀ tmp : List Int, x ∈ a.foldl mapSet tmp ↔ x ∈ tmp ∨ x ∈ a := by
  induction a with
  | nil => intro tmp; simp
  | cons n a ih =>
    intro tmp
    rw [List.foldl_cons, ih, mem_mapSet, List.mem_cons]
    tauto

theorem foldl_append_singleton (l : List Int) :
    ∀ uniq : List Int, l.foldl (fun uniq n => uniq ++ [n]) uniq = uniq ++ l := by
  induction l with
  | nil => intro uniq; simp
  | cons n l ih => intro uniq; rw [List.foldl_cons, ih]; simp

/-- Before the optional sort, `uniq` is the key list in `range` order. -/
theorem UniqueInts_unsorted (rangeOrder : List Int → List Int) (a : List Int) :
    UniqueInts rangeOrder a false = rangeOrder (a.foldl mapSet []) := by
  simp [UniqueInts, foldl_append_singleton]

theorem UniqueInts_perm (rangeOrder : List Int → List Int)
    (hrange : ∀ keys, (rangeOrder keys).Perm keys) (a : List Int) (sorted : Bool) :
    (UniqueInts rangeOrder a sorted).Perm (a.foldl mapSet []) := by
  cases sorted
  · rw [UniqueInts_unsorted]; exact hrange _
  · have h : UniqueInts rangeOrder a true = sortInts (rangeOrder (a.foldl mapSet [])) := by
      simp [UniqueInts, foldl_append_singleton]
    rw [h]
    exact (List.perm_insertionSort _ _).trans (hrange _)

theorem UniqueInts_sorted_le (rangeOrder : List Int → List Int) (a : List Int) :
    (UniqueInts rangeOrder a true).Sorted (· ≤ ·) := by
  have h : UniqueInts rangeOrder a true = sortInts (rangeOrder (a.foldl mapSet [])) := by
    simp [UniqueInts, foldl_append_singleton]
  rw [h]
  exact List.sorted_insertionSort _ _

/-- C10: whatever order the map is walked in (`rangeOrder` visits each key
once), `UniqueInts a sorted` holds each value of `a` exactly once and nothing
else; with `sorted` it is strictly increasing and is the sorted list of the
distinct values of `a`. -/
theorem UniqueInts_spec (rangeOrder : List Int → List Int)
    (hrange : ∀ keys, (rangeOrder keys).Perm keys) (a : List Int) (sorted : Bool) :
    (∀ x, x ∈ a → (UniqueInts rangeOrder a sorted).count x = 1) ∧
    (∀ x, x ∈ UniqueInts rangeOrder a sorted → x ∈ a) ∧
    (sorted = true →
      (UniqueInts rangeOrder a sorted).Sorted (· < ·) ∧
      UniqueInts rangeOrder a sorted = a.toFinset.sort (· ≤ ·)) := by
  have hperm := UniqueInts_perm rangeOrder hrange a sorted
  have hnodup : (UniqueInts rangeOrder a sorted).Nodup :=
    hperm.nodup_iff.mpr (foldl_mapSet_nodup a [] List.nodup_nil)
  have hmem : ∀ x, x ∈ UniqueInts rangeOrder a sorted ↔ x ∈ a := by
    intro x
    rw [hperm.mem_iff, mem_foldl_mapSet]
    simp
  refine ⟨?_, ?_, ?_⟩
  · intro x hx
    exact List.count_eq_one_of_mem hnodup ((hmem x).mpr hx)
  · intro x hx
    exact (hmem x).mp hx
  · intro hs
    subst hs
    have hle := UniqueInts_sorted_le rangeOrder a
    refine ⟨?_, ?_⟩
    · exact (List.Sorted.lt_of_le hle hnodup)
    · have hfin : (UniqueInts rangeOrder a true).toFinset = a.toFinset := by
        ext x
        simp [hmem]
      rw [← hfin]
      exact ((List.toFinset_sort (· ≤ ·) hnodup).mpr hle).symm

/-- Witness for C10: a map walked in reverse insertion order, on the slice of
the test `[8,3,8,4,6,1]`. -/
theorem UniqueInts_spec_witness :
    (∀ keys : List Int, (List.reverse keys).Perm keys) ∧
    UniqueInts List.reverse [8, 3, 8, 4, 6, 1] true = [1, 3, 4, 6, 8] ∧
    UniqueInts List.reverse [8, 3, 8, 4, 6, 1] false = [1, 6, 4, 3, 8] ∧
    ((∀ x, x ∈ [8, 3, 8, 4, 6, 1] →
        (UniqueInts List.reverse [8, 3, 8, 4, 6, 1] true).count x = 1) ∧
      (∀ x, x ∈ UniqueInts List.reverse [8, 3, 8, 4, 6, 1] true → x ∈ [8, 3, 8, 4, 6, 1]) ∧
      (true = true →
        (UniqueInts List.reverse [8, 3, 8, 4, 6, 1] true).Sorted (· < ·) ∧
        UniqueInts List.reverse [8, 3, 8, 4, 6, 1] true
          = ([8, 3, 8, 4, 6, 1] : List Int).toFinset.sort (· ≤ ·))) :=
  ⟨fun keys => List.reverse_perm keys, by decide, by decide,
    UniqueInts_spec List.reverse (fun keys => List.reverse_perm keys) [8, 3, 8, 4, 6, 1] true⟩

end Core

/-! ## `hid.recon`: channel hopping -/

namespace HidRecon

section HoppingProofs

variable {D : Type}

theorem wrapInt_of_range (x : Int) (h1 : -2 ^ 63 ≤ x) (h2 : x < 2 ^ 63) : wrapInt x = x := by
  unfold wrapInt
  omega

theorem nextChannel_of_range (TopChannel c : Int) (hTop : TopChannel < 2 ^ 63 - 1)
    (h1 : 1 ≤ c) (h2 : c ≤ TopChannel) :
    nextChannel TopChannel c = if c < TopChannel then c + 1 else 1 := by
  unfold nextChannel
  rw [wrapInt_of_range (c + 1) (by omega) (by omega)]
  by_cases h : c < TopChannel
  · simp only [h, if_true]
    rw [if_neg (by omega)]
  · simp only [h, if_false]
    rw [if_pos (by omega)]

theorem enterPromisc_fields (dg : Dongle D) (mod : HIDRecon) (d : D) :
    (enterPromisc dg mod d).1.channel = mod.channel ∧
    (enterPromisc dg mod d).1.lastHop = mod.lastHop ∧
    (enterPromisc dg mod d).1.hopPeriod = mod.hopPeriod := by
  unfold enterPromisc
  split
  · split <;> simp
  · simp

/-- Whatever `SetChannel` answers, a due hop moves the channel field on and
keeps the hop period. -/
theorem hop_channel (dg : Dongle D) (TopChannel now : Int) (mod : HIDRecon) (d : D)
    (hdue : now - mod.lastHop ≥ mod.hopPeriod) :
    (hop dg TopChannel now mod d).1.channel = nextChannel TopChannel mod.channel ∧
    (hop dg TopChannel now mod d).1.hopPeriod = mod.hopPeriod := by
  unfold hop
  rw [if_pos hdue]
  simp only
  split <;> simp

theorem hop_ok (dg : Dongle D) (TopChannel now : Int) (mod : HIDRecon) (d : D)
    (hdue : now - mod.lastHop ≥ mod.hopPeriod)
    (hset : (dg.SetChannel d (nextChannel TopChannel mod.channel)).2 = true) :
    (hop dg TopChannel now mod d).1.lastHop = now := by
  unfold hop
  rw [if_pos hdue]
  simp only
  split
  · rename_i d1 heq
    rw [heq] at hset
    simp at hset
  · simp

theorem hop_failed (dg : Dongle D) (TopChannel now : Int) (mod : HIDRecon) (d : D)
    (hdue : now - mod.lastHop ≥ mod.hopPeriod)
    (hset : (dg.SetChannel d (nextChannel TopChannel mod.channel)).2 = false) :
    (hop dg TopChannel now mod d).1.lastHop = mod.lastHop := by
  unfold hop
  rw [if_pos hdue]
  simp only
  split
  · simp
  · rename_i d1 heq
    rw [heq] at hset
    simp at hset

/-- Whatever `SetChannel` answers, a due `doHopping` call moves the channel
field on and keeps the hop period. -/
theorem doHopping_channel (dg : Dongle D) (TopChannel now : Int) (mod : HIDRecon) (d : D)
    (hdue : now - mod.lastHop ≥ mod.hopPeriod) :
    (doHopping dg TopChannel now mod d).1.channel = nextChannel TopChannel mod.channel ∧
    (doHopping dg TopChannel now mod d).1.hopPeriod = mod.hopPeriod := by
  obtain ⟨hc, hl, hp⟩ := enterPromisc_fields dg mod d
  have h := hop_channel dg TopChannel now (enterPromisc dg mod d).1 (enterPromisc dg mod d).2
    (by rw [hl, hp]; exact hdue)
  rw [hc, hp] at h
  exact h

/-- A due `doHopping` call whose `SetChannel` succeeds records the time of the hop. -/
theorem doHopping_ok (dg : Dongle D) (TopChannel now : Int) (mod : HIDRecon) (d : D)
    (hdue : now - mod.lastHop ≥ mod.hopPeriod)
    (hset : (dg.SetChannel (enterPromisc dg mod d).2
      (nextChannel TopChannel mod.channel)).2 = true) :
    (doHopping dg TopChannel now mod d).1.lastHop = now := by
  obtain ⟨hc, hl, hp⟩ := enterPromisc_fields dg mod d
  exact hop_ok dg TopChannel now (enterPromisc dg mod d).1 (enterPromisc dg mod d).2
    (by rw [hl, hp]; exact hdue) (by rw [hc]; exact hset)

/-- A due `doHopping` call whose `SetChannel` fails keeps `lastHop`. -/
theorem doHopping_lastHop_failed (dg : Dongle D) (TopChannel now : Int) (mod : HIDRecon)
    (d : D) (hdue : now - mod.lastHop ≥ mod.hopPeriod)
    (hset : (dg.SetChannel (enterPromisc dg mod d).2
      (nextChannel TopChannel mod.channel)).2 = false) :
    (doHopping dg TopChannel now mod d).1.lastHop = mod.lastHop := by
  obtain ⟨hc, hl, hp⟩ := enterPromisc_fields dg mod d
  have h := hop_failed dg TopChannel now (enterPromisc dg mod d).1 (enterPromisc dg mod d).2
    (by rw [hl, hp]; exact hdue) (by rw [hc]; exact hset)
  rw [hl] at h
  exact h

theorem runHopping_channel (dg : Dongle D) (TopChannel : Int) (hTop : TopChannel < 2 ^ 63 - 1)
    (hset : ∀ d n, (dg.SetChannel d n).2 = true) (ts : List Int) :
    ∀ (mod : HIDRecon) (d : D), 1 ≤ mod.channel → mod.channel ≤ TopChannel →
      hopsDue mod.hopPeriod mod.lastHop ts →
      (runHopping dg TopChannel ts (mod, d)).1.channel
        = (mod.channel - 1 + ts.length) % TopChannel + 1 := by
  induction ts with
  | nil =>
    intro mod d h1 h2 _
    simp only [runHopping, List.length_nil, Nat.cast_zero, add_zero]
    rw [Int.emod_eq_of_lt (by omega) (by omega)]
    omega
  | cons now ts ih =>
    intro mod d h1 h2 hdue
    obtain ⟨hnow, hrest⟩ := hdue
    obtain ⟨hc, hp⟩ := doHopping_channel dg TopChannel now mod d hnow
    have hl := doHopping_ok dg TopChannel now mod d hnow (hset _ _)
    have hnext := nextChannel_of_range TopChannel mod.channel hTop h1 h2
    simp only [runHopping]
    have hc1 : 1 ≤ (doHopping dg TopChannel now mod d).1.channel := by
      rw [hc, hnext]; split <;> omega
    have hc2 : (doHopping dg TopChannel now mod d).1.channel ≤ TopChannel := by
      rw [hc, hnext]; split <;> omega
    rw [ih (doHopping dg TopChannel now mod d).1 (doHopping dg TopChannel now mod d).2 hc1 hc2
      (by rw [hp, hl]; exact hrest)]
    rw [hc, hnext]
    simp only [List.length_cons, Nat.cast_add, Nat.cast_one]
    by_cases h : mod.channel < TopChannel
    · rw [if_pos h]
      congr 2
      omega
    · rw [if_neg h]
      have : mod.channel = TopChannel := by omega
      rw [this]
      have e : TopChannel - 1 + ((ts.length : Int) + 1) = (ts.length : Int) + TopChannel := by
        omega
      rw [e, Int.add_emod_self]
      simp

/-- C1: from a channel `c` in `[1, TopChannel]`, a `doHopping` call with the hop
period elapsed and `SetChannel` succeeding leaves the channel in
`[1, TopChannel]`, at `c + 1` when `c < TopChannel` and at `1` when
`c = TopChannel` (and records the time of the hop); `TopChannel` such calls in
a row bring the channel back to `c`. -/
theorem doHopping_cycle (dg : Dongle D) (TopChannel : Int) (hTop : TopChannel < 2 ^ 63 - 1)
    (mod : HIDRecon) (d : D) (h1 : 1 ≤ mod.channel) (h2 : mod.channel ≤ TopChannel) :
    (∀ now, now - mod.lastHop ≥ mod.hopPeriod →
      (dg.SetChannel (enterPromisc dg mod d).2 (nextChannel TopChannel mod.channel)).2 = true →
      1 ≤ (doHopping dg TopChannel now mod d).1.channel ∧
      (doHopping dg TopChannel now mod d).1.channel ≤ TopChannel ∧
      (doHopping dg TopChannel now mod d).1.channel
        = (if mod.channel < TopChannel then mod.channel + 1 else 1) ∧
      (doHopping dg TopChannel now mod d).1.lastHop = now) ∧
    ((∀ d n, (dg.SetChannel d n).2 = true) →
      ∀ ts : List Int, (ts.length : Int) = TopChannel →
        hopsDue mod.hopPeriod mod.lastHop ts →
        (runHopping dg TopChannel ts (mod, d)).1.channel = mod.channel) := by
  constructor
  · intro now hdue hset
    obtain ⟨hc, _⟩ := doHopping_channel dg TopChannel now mod d hdue
    have hl := doHopping_ok dg TopChannel now mod d hdue hset
    have hnext := nextChannel_of_range TopChannel mod.channel hTop h1 h2
    rw [hc, hnext]
    refine ⟨?_, ?_, rfl, hl⟩ <;> split <;> omega
  · intro hset ts hlen hdue
    rw [runHopping_channel dg TopChannel hTop hset ts mod d h1 h2 hdue, hlen,
      Int.add_emod_self, Int.emod_eq_of_lt (by omega) (by omega)]
    omega

/-- Witness for C1: three channels, the fresh engine, three hops 100 ms apart
on a transceiver whose calls all succeed. -/
theorem doHopping_cycle_witness :
    (1 ≤ (doHopping okDongle 3 100000000 (NewHIDRecon 0) ()).1.channel ∧
      (doHopping okDongle 3 100000000 (NewHIDRecon 0) ()).1.channel ≤ 3 ∧
      (doHopping okDongle 3 100000000 (NewHIDRecon 0) ()).1.channel
        = (if (NewHIDRecon 0).channel < 3 then (NewHIDRecon 0).channel + 1 else 1) ∧
      (doHopping okDongle 3 100000000 (NewHIDRecon 0) ()).1.lastHop = 100000000) ∧
    (runHopping okDongle 3 [100000000, 200000000, 300000000] (NewHIDRecon 0, ())).1.channel
      = (NewHIDRecon 0).channel ∧
    (runHopping okDongle 3 [100000000, 200000000, 300000000] (NewHIDRecon 0, ())).1.channel = 1 :=
  ⟨(doHopping_cycle okDongle 3 (by decide) (NewHIDRecon 0) () (by decide) (by decide)).1
      100000000 (by decide) rfl,
    (doHopping_cycle okDongle 3 (by decide) (NewHIDRecon 0) () (by decide) (by decide)).2
      (fun _ _ => rfl) [100000000, 200000000, 300000000] rfl
      ⟨by decide, by decide, by decide, trivial⟩,
    by decide⟩

end HoppingProofs

end HidRecon

namespace HidRecon

section HoppingFailure

variable {D : Type}

/-- C2, as stated, fails: with the hop period elapsed and `SetChannel`
failing, `doHopping` leaves the channel at 2 where it was 1. -/
theorem doHopping_failed_moves_channel :
    (200000000 - (NewHIDRecon 0).lastHop ≥ (NewHIDRecon 0).hopPeriod) ∧
    (stuckDongle.SetChannel (enterPromisc stuckDongle (NewHIDRecon 0) ()).2
      (nextChannel 83 (NewHIDRecon 0).channel)).2 = false ∧
    (NewHIDRecon 0).channel = 1 ∧
    (doHopping stuckDongle 83 200000000 (NewHIDRecon 0) ()).1.channel = 2 ∧
    ¬ ((doHopping stuckDongle 83 200000000 (NewHIDRecon 0) ()).1.channel
        = (NewHIDRecon 0).channel ∧
      (doHopping stuckDongle 83 200000000 (NewHIDRecon 0) ()).1.lastHop
        = (NewHIDRecon 0).lastHop) := by
  decide

/-- C2, amended: with the hop period elapsed and `SetChannel` failing,
`doHopping` leaves `lastHop` as it was, so that the hop is due again at any
later tick, and the channel has been advanced as for a successful hop (to
`c + 1`, or to `1` past `TopChannel`) and is not restored: the next call moves
on from there. -/
theorem doHopping_failed (dg : Dongle D) (TopChannel now : Int) (mod : HIDRecon) (d : D)
    (hdue : now - mod.lastHop ≥ mod.hopPeriod)
    (hfail : (dg.SetChannel (enterPromisc dg mod d).2
      (nextChannel TopChannel mod.channel)).2 = false) :
    (doHopping dg TopChannel now mod d).1.lastHop = mod.lastHop ∧
    (doHopping dg TopChannel now mod d).1.channel = nextChannel TopChannel mod.channel ∧
    (1 ≤ mod.channel → mod.channel ≤ TopChannel → TopChannel < 2 ^ 63 - 1 →
      (doHopping dg TopChannel now mod d).1.channel
        = if mod.channel < TopChannel then mod.channel + 1 else 1) ∧
    (∀ later, now ≤ later →
      later - (doHopping dg TopChannel now mod d).1.lastHop
        ≥ (doHopping dg TopChannel now mod d).1.hopPeriod ∧
      (doHopping dg TopChannel later (doHopping dg TopChannel now mod d).1
          (doHopping dg TopChannel now mod d).2).1.channel
        = nextChannel TopChannel (nextChannel TopChannel mod.channel)) := by
  obtain ⟨hch, hp⟩ := doHopping_channel dg TopChannel now mod d hdue
  have hl := doHopping_lastHop_failed dg TopChannel now mod d hdue hfail
  refine ⟨hl, hch, ?_, ?_⟩
  · intro h1 h2 hTop
    rw [hch, nextChannel_of_range TopChannel mod.channel hTop h1 h2]
  · intro later hlater
    have hdue2 : later - (doHopping dg TopChannel now mod d).1.lastHop
        ≥ (doHopping dg TopChannel now mod d).1.hopPeriod := by
      rw [hl, hp]; omega
    refine ⟨hdue2, ?_⟩
    rw [(doHopping_channel dg TopChannel later _ _ hdue2).1, hch]

/-- Witness for the amended C2: the fresh engine on a transceiver whose
`SetChannel` fails, 83 channels: the channel goes from 1 to 2 and `lastHop`
stays 0. -/
theorem doHopping_failed_witness :
    (doHopping stuckDongle 83 200000000 (NewHIDRecon 0) ()).1.lastHop = (NewHIDRecon 0).lastHop ∧
    (doHopping stuckDongle 83 200000000 (NewHIDRecon 0) ()).1.channel
      = nextChannel 83 (NewHIDRecon 0).channel ∧
    nextChannel 83 (NewHIDRecon 0).channel = 2 ∧
    (doHopping stuckDongle 83 300000000 (doHopping stuckDongle 83 200000000 (NewHIDRecon 0) ()).1
        (doHopping stuckDongle 83 200000000 (NewHIDRecon 0) ()).2).1.channel
      = nextChannel 83 (nextChannel 83 (NewHIDRecon 0).channel) ∧
    nextChannel 83 (nextChannel 83 (NewHIDRecon 0).channel) = 3 :=
  ⟨(doHopping_failed stuckDongle 83 200000000 (NewHIDRecon 0) () (by decide) (by decide)).1,
    (doHopping_failed stuckDongle 83 200000000 (NewHIDRecon 0) () (by decide) (by decide)).2.1,
    by decide,
    ((doHopping_failed stuckDongle 83 200000000 (NewHIDRecon 0) () (by decide)
      (by decide)).2.2.2 300000000 (by decide)).2,
    by decide⟩

end HoppingFailure

/-! ## `hid.recon`: `setSniffMode` -/

section SniffModeProofs

/-- C8, as stated, fails: a rejected address returns the error, yet
`inSniffMode`, which was `true`, is `false` after the call. -/
theorem setSniffMode_malformed_resets_flag :
    ("zz" ≠ "clear") ∧
    (rejectAll "zz").1 = some "invalid address" ∧
    ({ NewHIDRecon 0 with inSniffMode := true } : HIDRecon).inSniffMode = true ∧
    (setSniffMode rejectAll id "zz" { NewHIDRecon 0 with inSniffMode := true }).1
      = some "invalid address" ∧
    (setSniffMode rejectAll id "zz" { NewHIDRecon 0 with inSniffMode := true }).2.inSniffMode
      = false := by
  decide

/-- C8, amended: for an argument other than `"clear"` that the address
conversion rejects, `setSniffMode` returns that error and leaves `sniffAddr`,
`sniffAddrRaw`, `inPromMode`, `channel` and every other field as they were,
except that `inSniffMode` is `false` after the call. -/
theorem setSniffMode_malformed (ConvertAddress : String → Option String × Bytes)
    (NormalizeHIDAddress : String → String) (mode : String) (mod : HIDRecon)
    (hmode : mode ≠ "clear") (err : String) (raw : Bytes)
    (hconv : ConvertAddress mode = (some err, raw)) :
    setSniffMode ConvertAddress NormalizeHIDAddress mode mod
      = (some err, { mod with inSniffMode := false }) ∧
    (setSniffMode ConvertAddress NormalizeHIDAddress mode mod).2.sniffAddr = mod.sniffAddr ∧
    (setSniffMode ConvertAddress NormalizeHIDAddress mode mod).2.sniffAddrRaw
      = mod.sniffAddrRaw ∧
    (setSniffMode ConvertAddress NormalizeHIDAddress mode mod).2.inPromMode = mod.inPromMode ∧
    (setSniffMode ConvertAddress NormalizeHIDAddress mode mod).2.channel = mod.channel ∧
    (setSniffMode ConvertAddress NormalizeHIDAddress mode mod).2.inSniffMode = false := by
  have h : setSniffMode ConvertAddress NormalizeHIDAddress mode mod
      = (some err, { mod with inSniffMode := false }) := by
    unfold setSniffMode
    simp [hmode, hconv]
  rw [h]
  exact ⟨rfl, rfl, rfl, rfl, rfl, rfl⟩

/-- Witness for the amended C8: the argument `"zz"` on an engine in sniffer mode. -/
theorem setSniffMode_malformed_witness :
    setSniffMode rejectAll id "zz" { NewHIDRecon 0 with inSniffMode := true }
      = (some "invalid address",
          { ({ NewHIDRecon 0 with inSniffMode := true } : HIDRecon) with inSniffMode := false }) :=
  (setSniffMode_malformed rejectAll id "zz" { NewHIDRecon 0 with inSniffMode := true }
    (by decide) "invalid address" [] rfl).1

end SniffModeProofs

/-! ## `hid.recon`: `onSniffedBuffer` -/

section SniffedBufferProofs

/-- C9: locked on a device `dev` of the directory, a buffer `0x00 :: rest`
makes `onSniffedBuffer` append exactly `rest` to the payload history of `dev`,
add the current channel to its channel set and set its `LastSeen` to the time
of the call, every other record being kept; an empty buffer or one whose first
byte is not `0x00` leaves the whole directory as it was. -/
theorem onSniffedBuffer_spec (now : Int) (mod : HIDRecon) (hid : HID) (buf : Bytes)
    (dev : HIDDevice) (hdev : hid.Get mod.sniffAddr = some dev) :
    (∀ rest, buf = 0x00 :: rest →
      ∃ dev1, onSniffedBuffer now mod hid buf mod.sniffAddr = some dev1 ∧
        dev1 = ({ dev with LastSeen := now }.AddPayload rest).AddChannel mod.channel ∧
        dev1.payloads = dev.payloads ++ [rest] ∧
        mod.channel ∈ dev1.channels ∧
        (∀ ch, ch ∈ dev1.channels ↔ ch ∈ dev.channels ∨ ch = mod.channel) ∧
        dev1.LastSeen = now ∧
        dev1.Address = dev.Address ∧
        dev1.DevType = dev.DevType ∧
        ∀ addr, addr ≠ mod.sniffAddr → onSniffedBuffer now mod hid buf addr = hid addr) ∧
    ((buf = [] ∨ buf.head? ≠ some 0x00) → onSniffedBuffer now mod hid buf = hid) := by
  constructor
  · intro rest hbuf
    subst hbuf
    have hrun : onSniffedBuffer now mod hid (0x00 :: rest)
        = hid.store mod.sniffAddr
            (({ dev with LastSeen := now }.AddPayload rest).AddChannel mod.channel) := by
      unfold onSniffedBuffer
      simp [hdev]
    rw [hrun]
    refine ⟨({ dev with LastSeen := now }.AddPayload rest).AddChannel mod.channel,
      by simp [HID.store], rfl, ?_, ?_, ?_, ?_, ?_, ?_, ?_⟩
    · simp [HIDDevice.AddChannel, HIDDevice.AddPayload]
    · simp only [HIDDevice.AddChannel, HIDDevice.AddPayload]
      split <;> simp_all
    · intro ch
      simp only [HIDDevice.AddChannel, HIDDevice.AddPayload]
      split
      · rename_i hin
        constructor
        · intro h; exact Or.inl h
        · rintro (h | h)
          · exact h
          · exact h ▸ hin
      · simp
    · simp [HIDDevice.AddChannel, HIDDevice.AddPayload]
    · simp [HIDDevice.AddChannel, HIDDevice.AddPayload]
    · simp [HIDDevice.AddChannel, HIDDevice.AddPayload]
    · intro addr haddr
      simp [HID.store, haddr]
  · intro h
    unfold onSniffedBuffer
    rcases h with h | h
    · subst h
      simp
    · cases buf with
      | nil => simp
      | cons b rest =>
        have hb : b ≠ 0 := by simpa using h
        simp [hb]

/-- Witness for C9: the buffer `0x00 0xAA 0xBB` while locked on `testDevice`
on channel 4, and the buffer `0x01 0xAA` which is dropped. -/
theorem onSniffedBuffer_spec_witness :
    testHID.Get (lockedOn 4).sniffAddr = some testDevice ∧
    (∃ dev1, onSniffedBuffer 7 (lockedOn 4) testHID [0x00, 0xaa, 0xbb] (lockedOn 4).sniffAddr
        = some dev1 ∧
      dev1 = ({ testDevice with LastSeen := 7 }.AddPayload [0xaa, 0xbb]).AddChannel
        (lockedOn 4).channel ∧
      dev1.payloads = testDevice.payloads ++ [[0xaa, 0xbb]] ∧
      (lockedOn 4).channel ∈ dev1.channels ∧
      (∀ ch, ch ∈ dev1.channels ↔ ch ∈ testDevice.channels ∨ ch = (lockedOn 4).channel) ∧
      dev1.LastSeen = 7 ∧
      dev1.Address = testDevice.Address ∧
      dev1.DevType = testDevice.DevType ∧
      ∀ addr, addr ≠ (lockedOn 4).sniffAddr →
        onSniffedBuffer 7 (lockedOn 4) testHID [0x00, 0xaa, 0xbb] addr = testHID addr) ∧
    onSniffedBuffer 7 (lockedOn 4) testHID [0x00, 0xaa, 0xbb] "aa:bb:cc:dd:ee"
      = some { testDevice with LastSeen := 7, payloads := [[0xaa, 0xbb]], channels := [4] } ∧
    onSniffedBuffer 7 (lockedOn 4) testHID [0x01, 0xaa] = testHID ∧
    onSniffedBuffer 7 (lockedOn 4) testHID [] = testHID :=
  ⟨by decide,
    (onSniffedBuffer_spec 7 (lockedOn 4) testHID [0x00, 0xaa, 0xbb] testDevice (by decide)).1
      [0xaa, 0xbb] rfl,
    by decide,
    (onSniffedBuffer_spec 7 (lockedOn 4) testHID [0x01, 0xaa] testDevice (by decide)).2
      (Or.inr (by decide)),
    (onSniffedBuffer_spec 7 (lockedOn 4) testHID [] testDevice (by decide)).2 (Or.inl rfl)⟩

end SniffedBufferProofs

end HidRecon

/-! ## `hid.recon`: the injection stage of `doPing` -/

namespace HidRecon

section InjectionProofs

variable {D : Type}

theorem resolveCommands_unmapped (keyMap : KeyMap) (c : Char)
    (hmiss : keyMap (String.singleton c) = none) (str : List Char) (hc : c ∈ str) :
    ∀ cmds : List Command, resolveCommands keyMap str cmds = none := by
  induction str with
  | nil => simp at hc
  | cons x str ih =>
    intro cmds
    rcases List.mem_cons.mp hc with h | h
    · subst h
      simp [resolveCommands, hmiss]
    · simp only [resolveCommands]
      split
      · exact ih h _
      · rfl

/-- C5: when some character of the text has no entry in the key map, the
injection stage calls neither `BuildFrames` nor `TransmitPayload`: no frame is
built and none is sent, also for the mapped characters before it. -/
theorem inject_unmapped (env : Env) (dg : Dongle D) (keyMapName : String)
    (builder : FrameBuilder) (str : List Char) (d : D) (keyMap : KeyMap)
    (hmap : env.KeyMapFor keyMapName = some keyMap) (c : Char) (hc : c ∈ str)
    (hmiss : keyMap (String.singleton c) = none) :
    (inject env dg keyMapName builder str d).built = none ∧
    (inject env dg keyMapName builder str d).sent = [] ∧
    (inject env dg keyMapName builder str d).slept = [] ∧
    (inject env dg keyMapName builder str d).dongle = d := by
  unfold inject
  simp [hmap, resolveCommands_unmapped keyMap c hmiss str hc []]

/-- Witness for C5: the text `"hi!"` under a key map without `'!'`. -/
theorem inject_unmapped_witness :
    testKeyMap "h" ≠ none ∧ testKeyMap "i" ≠ none ∧ testKeyMap "!" = none ∧
    (inject testEnv okDongle "us" oneFrameBuilder "hi!".toList ()).built = none ∧
    (inject testEnv okDongle "us" oneFrameBuilder "hi!".toList ()).sent = [] ∧
    (inject testEnv okDongle "us" oneFrameBuilder "hi!".toList ()).slept = [] ∧
    (inject testEnv okDongle "us" oneFrameBuilder "hi!".toList ()).dongle = () :=
  ⟨by decide, by decide, by decide,
    inject_unmapped testEnv okDongle "us" oneFrameBuilder "hi!".toList () testKeyMap
      rfl '!' (by decide) (by decide)⟩

theorem sendFrames_shape (dg : Dongle D) (Sleep : Int) (frames : List Bytes) :
    ∀ d : D, TxShape frames (sendFrames dg Sleep frames d).sent
      (sendFrames dg Sleep frames d).completed := by
  induction frames with
  | nil => intro d; left; simp [sendFrames]
  | cons frame frames ih =>
    intro d
    simp only [sendFrames]
    split
    · right
      exact ⟨rfl, [], frame, frames, by simp, by simp, by simp⟩
    · rename_i d1 _
      rcases ih d1 with ⟨hc, hs, hall⟩ | ⟨hc, pre, f, post, hs, hsent, hall⟩
      · left
        refine ⟨hc, by simp [hs], ?_⟩
        intro e he
        rcases List.mem_cons.mp he with h | h
        · rw [h]
        · exact hall e h
      · right
        refine ⟨hc, (frame, true) :: pre, f, post, by simp [hs], by simp [hsent], ?_⟩
        intro e he
        rcases List.mem_cons.mp he with h | h
        · rw [h]
        · exact hall e h

theorem sendCommands_shape (dg : Dongle D) (cmds : List Command) :
    ∀ d : D, TxShape (frameSequence cmds) (sendCommands dg cmds d).sent
      (sendCommands dg cmds d).completed := by
  induction cmds with
  | nil => intro d; left; simp [sendCommands, frameSequence]
  | cons cmd cmds ih =>
    intro d
    simp only [sendCommands, frameSequence]
    rcases sendFrames_shape dg cmd.Sleep cmd.Frames d with
      ⟨hc, hs, hall⟩ | ⟨hc, pre, f, post, hs, hsent, hall⟩
    · rw [if_pos hc]
      rcases ih (sendFrames dg cmd.Sleep cmd.Frames d).dongle with
        ⟨hc2, hs2, hall2⟩ | ⟨hc2, pre2, f2, post2, hs2, hsent2, hall2⟩
      · left
        refine ⟨hc2, by simp [hs, hs2], ?_⟩
        intro e he
        rcases List.mem_append.mp he with h | h
        · exact hall e h
        · exact hall2 e h
      · right
        refine ⟨hc2, (sendFrames dg cmd.Sleep cmd.Frames d).sent ++ pre2, f2, post2,
          by simp [hs, hs2], by simp [hsent2], ?_⟩
        intro e he
        rcases List.mem_append.mp he with h | h
        · exact hall e h
        · exact hall2 e h
    · rw [if_neg (by simp [hc])]
      right
      exact ⟨hc, pre, f, post ++ frameSequence cmds, by simp [hs], hsent, hall⟩

theorem sendFrames_completed (dg : Dongle D)
    (hok : ∀ d frame, (dg.TransmitPayload d frame 250 1).2 = true) (Sleep : Int)
    (frames : List Bytes) : ∀ d : D, (sendFrames dg Sleep frames d).completed = true := by
  induction frames with
  | nil => intro d; rfl
  | cons frame frames ih =>
    intro d
    simp only [sendFrames]
    split
    · rename_i d1 heq
      have := hok d frame
      rw [heq] at this
      simp at this
    · rename_i d1 _
      exact ih d1

theorem sendCommands_completed (dg : Dongle D)
    (hok : ∀ d frame, (dg.TransmitPayload d frame 250 1).2 = true) (cmds : List Command) :
    ∀ d : D, (sendCommands dg cmds d).completed = true := by
  induction cmds with
  | nil => intro d; rfl
  | cons cmd cmds ih =>
    intro d
    simp only [sendCommands]
    rw [if_pos (sendFrames_completed dg hok cmd.Sleep cmd.Frames d)]
    exact ih _

/-- Once the layout exists and every character is resolved, the injection
stage calls `BuildFrames` on the resolved commands and runs the transmit
loops on what it left. -/
theorem inject_resolved (env : Env) (dg : Dongle D) (keyMapName : String)
    (builder : FrameBuilder) (str : List Char) (d : D) (keyMap : KeyMap)
    (hmap : env.KeyMapFor keyMapName = some keyMap) (cmds : List Command)
    (hres : resolveCommands keyMap str [] = some cmds) :
    (inject env dg keyMapName builder str d).built = some (builder cmds) ∧
    (inject env dg keyMapName builder str d).sent = (sendCommands dg (builder cmds) d).sent ∧
    (inject env dg keyMapName builder str d).slept = (sendCommands dg (builder cmds) d).slept ∧
    (inject env dg keyMapName builder str d).dongle
      = (sendCommands dg (builder cmds) d).dongle := by
  unfold inject
  simp [hmap, hres]

theorem handed_append (dg : Dongle D) (s1 s2 : List (Bytes × Bool)) :
    ∀ d d1 d2 : D, handed dg d s1 d1 → handed dg d1 s2 d2 → handed dg d (s1 ++ s2) d2 := by
  induction s1 with
  | nil =>
    intro d d1 d2 h1 h2
    simp only [handed] at h1
    subst h1
    simpa using h2
  | cons e s1 ih =>
    intro d d1 d2 h1 h2
    simp only [handed] at h1
    simp only [List.cons_append, handed]
    exact ⟨h1.1, ih _ d1 d2 h1.2 h2⟩

/-- The record of the inner loop is the sequence of the transceiver calls it
made, and its final state is the one the last call left. -/
theorem sendFrames_handed (dg : Dongle D) (Sleep : Int) (frames : List Bytes) :
    ∀ d : D, handed dg d (sendFrames dg Sleep frames d).sent
      (sendFrames dg Sleep frames d).dongle := by
  induction frames with
  | nil => intro d; simp [sendFrames, handed]
  | cons frame frames ih =>
    intro d
    simp only [sendFrames]
    split
    · rename_i d1 heq
      simp [handed, heq]
    · rename_i d1 heq
      simp only [handed, heq]
      exact ⟨trivial, ih d1⟩

/-- The record of the injection loops is the sequence of the transceiver
calls they made, and their final state is the one the last call left. -/
theorem sendCommands_handed (dg : Dongle D) (cmds : List Command) :
    ∀ d : D, handed dg d (sendCommands dg cmds d).sent (sendCommands dg cmds d).dongle := by
  induction cmds with
  | nil => intro d; simp [sendCommands, handed]
  | cons cmd cmds ih =>
    intro d
    simp only [sendCommands]
    split
    · exact handed_append dg _ _ d _ _ (sendFrames_handed dg cmd.Sleep cmd.Frames d) (ih _)
    · exact sendFrames_handed dg cmd.Sleep cmd.Frames d

/-- C6: the injection loops call `TransmitPayload` on the transceiver once per
entry of the record `sent`, in order, each call with the recorded frame, in
the state the call before it left, and with the recorded outcome being the
transceiver's answer; the state they end in is the one the last call left.
The frames so handed over are an initial segment of the frame sequence of the
commands; they are the whole sequence when no transmit failed (in particular
on a transceiver whose transmits all succeed), and otherwise the calls end
with the first frame whose transmit failed, nothing being attempted after it.
The text `"ok"` with a one-frame-per-command builder hands the transceiver the
frame of `'o'` then the frame of `'k'` and nothing else; if the first transmit
fails, the transceiver receives the frame of `'o'` only. -/
theorem sendCommands_spec (dg : Dongle D) (cmds : List Command) (d : D) :
    handed dg d (sendCommands dg cmds d).sent (sendCommands dg cmds d).dongle ∧
    ((sendCommands dg cmds d).sent.map Prod.fst <+: frameSequence cmds) ∧
    ((∀ e ∈ (sendCommands dg cmds d).sent, e.2 = true) →
      (sendCommands dg cmds d).sent.map Prod.fst = frameSequence cmds) ∧
    ((∃ e ∈ (sendCommands dg cmds d).sent, e.2 = false) →
      ∃ pre f, (sendCommands dg cmds d).sent = pre ++ [(f, false)] ∧ ∀ e ∈ pre, e.2 = true) ∧
    ((∀ d frame, (dg.TransmitPayload d frame 250 1).2 = true) →
      (sendCommands dg cmds d).sent.map Prod.fst = frameSequence cmds ∧
      ∀ e ∈ (sendCommands dg cmds d).sent, e.2 = true) ∧
    ((sendCommands dg cmds d).completed = true ↔
      ∀ e ∈ (sendCommands dg cmds d).sent, e.2 = true) ∧
    (inject testEnv okDongle "us" oneFrameBuilder "ok".toList ()).sent
      = [([0, 0x12], true), ([0, 0x0e], true)] ∧
    (inject testEnv scripted "us" oneFrameBuilder "ok".toList [false]).sent
      = [([0, 0x12], false)] ∧
    (inject testEnv recorder "us" oneFrameBuilder "ok".toList ([], [])).dongle
      = ([], [[0, 0x12], [0, 0x0e]]) ∧
    (inject testEnv recorder "us" oneFrameBuilder "ok".toList ([true, false], [])).dongle
      = ([], [[0, 0x12], [0, 0x0e]]) ∧
    (inject testEnv recorder "us" oneFrameBuilder "ok".toList ([false, true], [])).dongle
      = ([true], [[0, 0x12]]) := by
  refine ⟨sendCommands_handed dg cmds d, ?_, ?_, ?_, ?_, ?_, by decide, by decide, by decide,
    by decide, by decide⟩
  · rcases sendCommands_shape dg cmds d with
      ⟨_, hs, _⟩ | ⟨_, pre, f, post, hs, hsent, _⟩
    · exact ⟨[], by simp [hs]⟩
    · exact ⟨post, by simp [hs, hsent]⟩
  · intro hall
    rcases sendCommands_shape dg cmds d with
      ⟨_, hs, _⟩ | ⟨_, pre, f, post, _, hsent, _⟩
    · exact hs
    · have := hall (f, false) (by simp [hsent])
      simp at this
  · rintro ⟨e, he, hfalse⟩
    rcases sendCommands_shape dg cmds d with
      ⟨_, _, hall⟩ | ⟨_, pre, f, post, _, hsent, hall⟩
    · rw [hall e he] at hfalse
      simp at hfalse
    · exact ⟨pre, f, hsent, hall⟩
  · intro hok
    rcases sendCommands_shape dg cmds d with
      ⟨_, hs, hall⟩ | ⟨hc, _⟩
    · exact ⟨hs, hall⟩
    · rw [sendCommands_completed dg hok cmds d] at hc
      simp at hc
  · rcases sendCommands_shape dg cmds d with
      ⟨hc, _, hall⟩ | ⟨hc, pre, f, post, _, hsent, _⟩
    · exact ⟨fun _ => hall, fun _ => hc⟩
    · constructor
      · intro h
        rw [hc] at h
        simp at h
      · intro hall
        have := hall (f, false) (by simp [hsent])
        simp at this

end InjectionProofs

end HidRecon

/-! ## `hid.recon`: the keep-alive block of `doPing` -/

namespace HidRecon

section PingProofs

variable {D : Type}

theorem enterSniffer_fields (dg : Dongle D) (mod : HIDRecon) (d : D) :
    (enterSniffer dg mod d).1.channel = mod.channel ∧
    (enterSniffer dg mod d).1.lastPing = mod.lastPing ∧
    (enterSniffer dg mod d).1.pingPeriod = mod.pingPeriod ∧
    (enterSniffer dg mod d).1.pingPayload = mod.pingPayload := by
  unfold enterSniffer
  split
  · split <;> simp
  · simp

/-- The engine state `doPing` leaves is the one its keep-alive block leaves. -/
theorem doPing_mod (env : Env) (dg : Dongle D) (now : Int) (hid : HID) (mod : HIDRecon)
    (d : D) :
    (doPing env dg now hid mod d).mod
      = (keepAlive dg env.TopChannel now (enterSniffer dg mod d).1 (enterSniffer dg mod d).2).mod := by
  unfold doPing
  simp only
  split
  · rfl
  · split
    · rfl
    · split <;> rfl

/-- With every transmit failing, the scan loop is left with `mod.channel` one
past `TopChannel` (or where it started, if that is further). -/
theorem scan_all_fail (dg : Dongle D) (TopChannel : Int) (pingPayload : Bytes)
    (hfail : ∀ d, (dg.TransmitPayload d pingPayload 250 1).2 = false) :
    ∀ (n : Nat) (ch : Int) (d : D), (TopChannel + 1 - ch).toNat = n →
      (scan dg TopChannel pingPayload ch d).found = false ∧
      (scan dg TopChannel pingPayload ch d).channel = max ch (TopChannel + 1) := by
  intro n
  induction n with
  | zero =>
    intro ch d hn
    rw [scan, if_neg (by omega)]
    exact ⟨rfl, by simp only; omega⟩
  | succ n ih =>
    intro ch d hn
    rw [scan, if_pos (by omega)]
    have hmax : max (ch + 1) (TopChannel + 1) = max ch (TopChannel + 1) := by omega
    split
    · rename_i d1 _
      rw [← hmax]
      exact ih (ch + 1) d1 (by omega)
    · rename_i d1 _
      split
      · rename_i d2 heq
        have := hfail d1
        rw [heq] at this
        simp at this
      · rename_i d2 _
        rw [← hmax]
        exact ih (ch + 1) d2 (by omega)

/-- On a radio that answers on channel `K` only, the scan entered at or below
`K` stops on `K`. -/
theorem scan_radio_finds (K TopChannel : Int) (pingPayload : Bytes) (hK : K ≤ TopChannel) :
    ∀ (n : Nat) (ch r : Int), (K - ch).toNat = n → ch ≤ K →
      (scan (radio K) TopChannel pingPayload ch r).found = true ∧
      (scan (radio K) TopChannel pingPayload ch r).channel = K := by
  intro n
  induction n with
  | zero =>
    intro ch r hn hle
    have hch : ch = K := by omega
    subst hch
    rw [scan, if_pos hK]
    simp [radio]
  | succ n ih =>
    intro ch r hn hle
    have hne : ch ≠ K := by omega
    rw [scan, if_pos (by omega)]
    have hstep := ih (ch + 1) ch (by omega) (by omega)
    have hset : (radio K).SetChannel r ch = (ch, true) := rfl
    have htx : (radio K).TransmitPayload ch pingPayload 250 1 = (ch, false) := by
      simp [radio, hne]
    rw [hset]
    simp only
    rw [htx]
    exact hstep

theorem keepAlive_not_due (dg : Dongle D) (TopChannel now : Int) (mod : HIDRecon) (d : D)
    (hdue : ¬ now - mod.lastPing ≥ mod.pingPeriod) :
    keepAlive dg TopChannel now mod d = ⟨mod, d, false⟩ := by
  unfold keepAlive
  rw [if_neg hdue]

theorem keepAlive_ping_ok (dg : Dongle D) (TopChannel now : Int) (mod : HIDRecon) (d : D)
    (hdue : now - mod.lastPing ≥ mod.pingPeriod)
    (hok : (dg.TransmitPayload d mod.pingPayload 250 1).2 = true) :
    keepAlive dg TopChannel now mod d
      = ⟨mod, (dg.TransmitPayload d mod.pingPayload 250 1).1, false⟩ := by
  unfold keepAlive
  rw [if_pos hdue]
  split
  · rename_i d1 heq
    rw [heq]
  · rename_i d1 heq
    rw [heq] at hok
    simp at hok

theorem keepAlive_ping_failed (dg : Dongle D) (TopChannel now : Int) (mod : HIDRecon) (d : D)
    (hdue : now - mod.lastPing ≥ mod.pingPeriod)
    (hfail : (dg.TransmitPayload d mod.pingPayload 250 1).2 = false) :
    keepAlive dg TopChannel now mod d
      = if (scan dg TopChannel mod.pingPayload 1
              (dg.TransmitPayload d mod.pingPayload 250 1).1).found then
          ⟨{ mod with
              channel := (scan dg TopChannel mod.pingPayload 1
                (dg.TransmitPayload d mod.pingPayload 250 1).1).channel
              lastPing := now },
            (scan dg TopChannel mod.pingPayload 1
              (dg.TransmitPayload d mod.pingPayload 250 1).1).dongle, true⟩
        else
          ⟨{ mod with
              channel := (scan dg TopChannel mod.pingPayload 1
                (dg.TransmitPayload d mod.pingPayload 250 1).1).channel },
            (scan dg TopChannel mod.pingPayload 1
              (dg.TransmitPayload d mod.pingPayload 250 1).1).dongle, false⟩ := by
  unfold keepAlive
  rw [if_pos hdue]
  split
  · rename_i d1 heq
    rw [heq] at hfail
    simp at hfail
  · rename_i d1 heq
    rw [heq]

/-- The keep-alive block executes its `return` exactly when the ping was due,
failed on the current channel, and the scan found a channel that answers. -/
theorem keepAlive_returned_iff (dg : Dongle D) (TopChannel now : Int) (mod : HIDRecon) (d : D) :
    (keepAlive dg TopChannel now mod d).returned = true ↔
      (now - mod.lastPing ≥ mod.pingPeriod ∧
        (dg.TransmitPayload d mod.pingPayload 250 1).2 = false ∧
        (scan dg TopChannel mod.pingPayload 1
          (dg.TransmitPayload d mod.pingPayload 250 1).1).found = true) := by
  by_cases hdue : now - mod.lastPing ≥ mod.pingPeriod
  · cases hp : (dg.TransmitPayload d mod.pingPayload 250 1).2
    · rw [keepAlive_ping_failed dg TopChannel now mod d hdue hp]
      split <;> simp_all
    · rw [keepAlive_ping_ok dg TopChannel now mod d hdue hp]
      simp
  · rw [keepAlive_not_due dg TopChannel now mod d hdue]
    simp [hdue]

theorem enterSniffer_radio (K : Int) (mod : HIDRecon) (r : Int) :
    (enterSniffer (radio K) mod r).2 = r := by
  unfold enterSniffer
  split
  · split
    · rename_i d1 heq
      have : d1 = r := by
        have h := congrArg Prod.fst heq
        simpa [radio] using h.symm
      simp [this]
    · rename_i d1 heq
      have : d1 = r := by
        have h := congrArg Prod.fst heq
        simpa [radio] using h.symm
      simp [this]
  · rfl

/-- What the keep-alive block of `doPing` does on a radio that answers on
channel `K` only. -/
theorem doPing_on_radio (env : Env) (K now : Int) (hid : HID) (mod : HIDRecon) (r : Int)
    (hK1 : 1 ≤ K) (hK2 : K ≤ env.TopChannel)
    (hdue : now - mod.lastPing ≥ mod.pingPeriod) (hsync : mod.channel = r) :
    (doPing env (radio K) now hid mod r).mod.channel = K ∧
    (doPing env (radio K) now hid mod r).mod.lastPing
      = if r = K then mod.lastPing else now := by
  obtain ⟨hc, hl, hp, hpay⟩ := enterSniffer_fields (radio K) mod r
  rw [doPing_mod, enterSniffer_radio]
  have hdue1 : now - (enterSniffer (radio K) mod r).1.lastPing
      ≥ (enterSniffer (radio K) mod r).1.pingPeriod := by rw [hl, hp]; exact hdue
  by_cases hr : r = K
  · have hok : ((radio K).TransmitPayload r
        (enterSniffer (radio K) mod r).1.pingPayload 250 1).2 = true := by
      simp [radio, hr]
    rw [keepAlive_ping_ok (radio K) env.TopChannel now _ r hdue1 hok, if_pos hr]
    refine ⟨?_, hl⟩
    show (enterSniffer (radio K) mod r).1.channel = K
    rw [hc, hsync, hr]
  · have hfail : ((radio K).TransmitPayload r
        (enterSniffer (radio K) mod r).1.pingPayload 250 1).2 = false := by
      simp [radio, hr]
    obtain ⟨hfound, hch⟩ := scan_radio_finds K env.TopChannel
      (enterSniffer (radio K) mod r).1.pingPayload hK2 (K - 1).toNat 1
      ((radio K).TransmitPayload r (enterSniffer (radio K) mod r).1.pingPayload 250 1).1
      rfl hK1
    rw [keepAlive_ping_failed (radio K) env.TopChannel now _ r hdue1 hfail, if_pos hfound,
      if_neg hr]
    exact ⟨hch, rfl⟩

/-- C3, on the code: with the ping due, on a radio tuned to the engine's channel
`r` that accepts every `SetChannel` and answers a transmit exactly on channel
`K` of `[1, TopChannel]`, `doPing` leaves the channel at `K`; `lastPing` is set
to the time of the call when `r ≠ K` (the scan found `K`), and is left as it
was when `r = K` (the ping on the current channel succeeded). -/
theorem doPing_radio (env : Env) (K now : Int) (hid : HID) (mod : HIDRecon) (r : Int)
    (hK1 : 1 ≤ K) (hK2 : K ≤ env.TopChannel)
    (hdue : now - mod.lastPing ≥ mod.pingPeriod) (hsync : mod.channel = r) :
    (doPing env (radio K) now hid mod r).mod.channel = K ∧
    (r = K → (doPing env (radio K) now hid mod r).mod.lastPing = mod.lastPing) ∧
    (r ≠ K → (doPing env (radio K) now hid mod r).mod.lastPing = now) := by
  obtain ⟨hch, hlast⟩ := doPing_on_radio env K now hid mod r hK1 hK2 hdue hsync
  refine ⟨hch, ?_, ?_⟩
  · intro hr
    rw [hlast, if_pos hr]
  · intro hr
    rw [hlast, if_neg hr]

/-- C3 at the failing input: the radio answers on channel 3 only, the engine
is on channel 3, the ping is due at time `200000000`: the channel stays 3 and
`lastPing` stays `0`, it is not advanced to the time of the call. -/
theorem doPing_radio_witness :
    (200000000 - (lockedOn 3).lastPing ≥ (lockedOn 3).pingPeriod) ∧
    (doPing testEnv (radio 3) 200000000 testHID (lockedOn 3) 3).mod.channel = 3 ∧
    (doPing testEnv (radio 3) 200000000 testHID (lockedOn 3) 3).mod.lastPing = 0 ∧
    (doPing testEnv (radio 3) 200000000 testHID (lockedOn 1) 1).mod.lastPing = 200000000 :=
  ⟨by decide,
    (doPing_radio testEnv 3 200000000 testHID (lockedOn 3) 3 (by decide) (by decide)
      (by decide) rfl).1,
    (doPing_radio testEnv 3 200000000 testHID (lockedOn 3) 3 (by decide) (by decide)
      (by decide) rfl).2.1 rfl,
    (doPing_radio testEnv 3 200000000 testHID (lockedOn 1) 1 (by decide) (by decide)
      (by decide) rfl).2.2 (by decide)⟩

/-- C4, on the code: with the ping due and every keep-alive transmit failing,
`doPing` leaves `lastPing` as it was and leaves the channel one past
`TopChannel` (the value of the loop variable when the scan loop is left), which
is outside `[1, TopChannel]`. -/
theorem doPing_scan_exhausted (env : Env) (dg : Dongle D) (now : Int) (hid : HID)
    (mod : HIDRecon) (d : D) (hTop : 0 ≤ env.TopChannel)
    (hdue : now - mod.lastPing ≥ mod.pingPeriod)
    (hfail : ∀ d, (dg.TransmitPayload d mod.pingPayload 250 1).2 = false) :
    (doPing env dg now hid mod d).mod.lastPing = mod.lastPing ∧
    (doPing env dg now hid mod d).mod.channel = env.TopChannel + 1 ∧
    ¬ (doPing env dg now hid mod d).mod.channel ≤ env.TopChannel := by
  obtain ⟨hc, hl, hp, hpay⟩ := enterSniffer_fields dg mod d
  have hdue1 : now - (enterSniffer dg mod d).1.lastPing
      ≥ (enterSniffer dg mod d).1.pingPeriod := by rw [hl, hp]; exact hdue
  have hfail1 : ∀ d1, (dg.TransmitPayload d1 (enterSniffer dg mod d).1.pingPayload 250 1).2
      = false := by rw [hpay]; exact hfail
  obtain ⟨hfound, hch⟩ := scan_all_fail dg env.TopChannel
    (enterSniffer dg mod d).1.pingPayload hfail1 (env.TopChannel + 1 - 1).toNat 1
    (dg.TransmitPayload (enterSniffer dg mod d).2
      (enterSniffer dg mod d).1.pingPayload 250 1).1 rfl
  have hmax : max 1 (env.TopChannel + 1) = env.TopChannel + 1 := by omega
  rw [doPing_mod, keepAlive_ping_failed dg env.TopChannel now (enterSniffer dg mod d).1
    (enterSniffer dg mod d).2 hdue1 (hfail1 _), if_neg (by simp [hfound])]
  simp only [hch, hmax, hl]
  refine ⟨trivial, trivial, ?_⟩
  omega

/-- C4 at a concrete input: five channels, a radio on which no transmit
succeeds, the engine on channel 2: after `doPing` the channel is 6. -/
theorem doPing_scan_exhausted_witness :
    (doPing testEnv silentRadio 200000000 testHID (lockedOn 2) 2).mod.lastPing
      = (lockedOn 2).lastPing ∧
    (doPing testEnv silentRadio 200000000 testHID (lockedOn 2) 2).mod.channel = 5 + 1 ∧
    ¬ (doPing testEnv silentRadio 200000000 testHID (lockedOn 2) 2).mod.channel ≤ 5 :=
  doPing_scan_exhausted testEnv silentRadio 200000000 testHID (lockedOn 2) 2 (by decide)
    (by decide) (fun _ => rfl)

theorem enterSniffer_lookup_fields (dg : Dongle D) (mod : HIDRecon) (d : D) :
    (enterSniffer dg mod d).1.sniffAddr = mod.sniffAddr ∧
    (enterSniffer dg mod d).1.keyMap = mod.keyMap := by
  unfold enterSniffer
  split
  · split <;> simp
  · simp

theorem keepAlive_lookup_fields (dg : Dongle D) (TopChannel now : Int) (mod : HIDRecon) (d : D) :
    (keepAlive dg TopChannel now mod d).mod.sniffAddr = mod.sniffAddr ∧
    (keepAlive dg TopChannel now mod d).mod.keyMap = mod.keyMap := by
  unfold keepAlive
  split
  · split
    · simp
    · simp only
      split <;> simp
  · simp

/-- When the keep-alive block executes its `return`, nothing of the injection
stage runs. -/
theorem doPing_returned (env : Env) (dg : Dongle D) (now : Int) (hid : HID) (mod : HIDRecon)
    (d : D)
    (hret : (keepAlive dg env.TopChannel now (enterSniffer dg mod d).1
      (enterSniffer dg mod d).2).returned = true) :
    (doPing env dg now hid mod d).inj.built = none ∧
    (doPing env dg now hid mod d).inj.sent = [] ∧
    (doPing env dg now hid mod d).inj.slept = [] := by
  unfold doPing
  simp [hret]

theorem resolveCommands_mapped (keyMap : KeyMap) (str : List Char)
    (hall : ∀ c ∈ str, keyMap (String.singleton c) ≠ none) :
    ∀ cmds : List Command, ∃ out, resolveCommands keyMap str cmds = some out ∧
      out.length = cmds.length + str.length := by
  induction str with
  | nil => intro cmds; exact ⟨cmds, rfl, by simp⟩
  | cons x str ih =>
    intro cmds
    simp only [resolveCommands]
    split
    · rename_i m _
      obtain ⟨out, hout, hlen⟩ := ih (fun c hc => hall c (List.mem_cons_of_mem _ hc))
        (cmds ++ [{ Char := String.singleton x, HID := m.HID, Mode := m.Mode, Sleep := 0,
                    Frames := [] }])
      exact ⟨out, hout, by simp [hlen]; omega⟩
    · rename_i hnone
      exact absurd hnone (hall x (List.mem_cons_self _ _))

theorem sendCommands_first (dg : Dongle D) (cmds : List Command) (d : D) (f : Bytes)
    (rest : List Bytes) (hseq : frameSequence cmds = f :: rest) :
    ∃ ok, (sendCommands dg cmds d).sent.head? = some (f, ok) := by
  rcases sendCommands_shape dg cmds d with
    ⟨_, hs, _⟩ | ⟨_, pre, f1, post, hs, hsent, _⟩
  · rw [hseq] at hs
    cases hsent : (sendCommands dg cmds d).sent with
    | nil => rw [hsent] at hs; simp at hs
    | cons e es =>
      rw [hsent] at hs
      simp only [List.map_cons, List.cons.injEq] at hs
      exact ⟨e.2, by simp [← hs.1]⟩
  · rw [hseq] at hs
    rw [hsent]
    cases pre with
    | nil =>
      simp only [List.map_nil, List.nil_append, List.cons.injEq] at hs
      exact ⟨false, by simp [hs.1]⟩
    | cons e es =>
      simp only [List.map_cons, List.cons_append, List.cons.injEq] at hs
      exact ⟨e.2, by simp [hs.1]⟩

/-- When the keep-alive block does not execute its `return` (the ping was not
due, or succeeded on the current channel, or the scan found no channel), the
device is in the directory, its type has a builder, the layout exists and
maps every character of the text, then `BuildFrames` is called on the
resolved commands and the first frame of the built sequence is handed to the
transceiver. -/
theorem doPing_injects (env : Env) (dg : Dongle D) (now : Int) (hid : HID) (mod : HIDRecon)
    (d : D)
    (hret : (keepAlive dg env.TopChannel now (enterSniffer dg mod d).1
      (enterSniffer dg mod d).2).returned = false)
    (dev : HIDDevice) (hdev : hid.Get mod.sniffAddr = some dev)
    (builder : FrameBuilder) (hbuilder : env.FrameBuilders dev.DevType = some builder)
    (keyMap : KeyMap) (hmap : env.KeyMapFor mod.keyMap = some keyMap)
    (hall : ∀ c ∈ str, keyMap (String.singleton c) ≠ none) :
    ∃ cmds, resolveCommands keyMap str [] = some cmds ∧
      (doPing env dg now hid mod d).inj.built = some (builder cmds) ∧
      ∀ f rest, frameSequence (builder cmds) = f :: rest →
        ∃ ok, (doPing env dg now hid mod d).inj.sent.head? = some (f, ok) := by
  obtain ⟨cmds, hres, _⟩ := resolveCommands_mapped keyMap str hall []
  obtain ⟨ha, hk⟩ := keepAlive_lookup_fields dg env.TopChannel now (enterSniffer dg mod d).1
    (enterSniffer dg mod d).2
  obtain ⟨ha1, hk1⟩ := enterSniffer_lookup_fields dg mod d
  have hrun : (doPing env dg now hid mod d).inj
      = inject env dg mod.keyMap builder str
          (keepAlive dg env.TopChannel now (enterSniffer dg mod d).1
            (enterSniffer dg mod d).2).dongle := by
    unfold doPing
    simp only [hret, ha, ha1, hk, hk1, hdev, hbuilder]
    simp
  refine ⟨cmds, hres, ?_, ?_⟩
  · rw [hrun]
    unfold inject
    simp [hmap, hres]
  · intro f rest hseq
    rw [hrun]
    unfold inject
    simp only [hmap, hres]
    exact sendCommands_first dg (builder cmds) _ f rest hseq

/-- C7 at the failing input: the device is in the directory, its type has a
builder, the layout `"us"` exists and maps every character of the text, the
ping is due, the radio is on channel 1 and answers on channel 3 only.  The
scan reacquires the link on channel 3 and `doPing` returns there: `BuildFrames`
is not called and no frame is handed to the transceiver.  (With the radio
already on channel 3 the same call sends the frame of `'h'` first.) -/
theorem doPing_reacquired_skips_injection :
    testHID.Get (lockedOn 1).sniffAddr = some testDevice ∧
    testEnv.FrameBuilders testDevice.DevType = some oneFrameBuilder ∧
    testEnv.KeyMapFor (lockedOn 1).keyMap = some testKeyMap ∧
    (∀ c ∈ str, testKeyMap (String.singleton c) ≠ none) ∧
    200000000 - (lockedOn 1).lastPing ≥ (lockedOn 1).pingPeriod ∧
    (doPing testEnv (radio 3) 200000000 testHID (lockedOn 1) 1).mod.channel = 3 ∧
    (doPing testEnv (radio 3) 200000000 testHID (lockedOn 1) 1).mod.lastPing = 200000000 ∧
    (doPing testEnv (radio 3) 200000000 testHID (lockedOn 1) 1).inj.built = none ∧
    (doPing testEnv (radio 3) 200000000 testHID (lockedOn 1) 1).inj.sent = [] ∧
    (doPing testEnv (radio 3) 200000000 testHID (lockedOn 3) 3).inj.sent.head?
      = some ([0, 0x0b], true) := by
  have hret : (keepAlive (radio 3) testEnv.TopChannel 200000000
      (enterSniffer (radio 3) (lockedOn 1) 1).1
      (enterSniffer (radio 3) (lockedOn 1) 1).2).returned = true := by
    rw [keepAlive_returned_iff]
    refine ⟨by decide, by decide, ?_⟩
    exact (scan_radio_finds 3 testEnv.TopChannel _ (by decide) 2 1 _ rfl (by decide)).1
  have hrun := doPing_returned testEnv (radio 3) 200000000 testHID (lockedOn 1) 1 hret
  have hmod := doPing_on_radio testEnv 3 200000000 testHID (lockedOn 1) 1 (by decide)
    (by decide) (by decide) rfl
  exact ⟨by decide, rfl, rfl, by decide, by decide, hmod.1, hmod.2, hrun.1, hrun.2.1, by decide⟩

end PingProofs

end HidRecon
